/-
Verification of the SETLyze spot-preference analysis core against its
specification.  The definitions below are shallow embeddings of the Python
sources `setlyze/std.py` and `setlyze/analysis/spot_preference.py`:
pure functions become Lean functions, the SQLite tables become lists of
rows, Python dictionaries become association lists (or finitely supported
functions where noted), and fallible code returns `Except`.
-/
import Mathlib

deriving instance DecidableEq for Except

namespace Setlyze

/-! ## Spatial model (`setlyze/std.py`, `spot_preference.py`)

The four built-in plate areas and their cell membership tables, written
exactly as the `area2spots` dictionary literal in
`Start.set_plate_area_totals_observed` / `set_plate_area_totals_expected`. -/

/-- The four built-in plate areas `A`, `B`, `C`, `D`. -/
inductive Area : Type
  | A | B | C | D
deriving DecidableEq, Repr, Fintype

/-- Cells of area `A` (the corners), from the `area2spots` literal. -/
def cellsA : List Nat := [1, 5, 21, 25]

/-- Cells of area `B` (the border), from the `area2spots` literal. -/
def cellsB : List Nat := [2, 3, 4, 6, 10, 11, 15, 16, 20, 22, 23, 24]

/-- Cells of area `C` (the inner ring), from the `area2spots` literal. -/
def cellsC : List Nat := [7, 8, 9, 12, 14, 17, 18, 19]

/-- Cells of area `D` (the center), from the `area2spots` literal. -/
def cellsD : List Nat := [13]

/-- Membership table of the built-in areas (`area2spots` in the source,
in its literal A, B, C, D order). -/
def spotCells : Area → List Nat
  | .A => cellsA
  | .B => cellsB
  | .C => cellsC
  | .D => cellsD

/-- The 25 cell indices of a plate, `1` to `25`. -/
def allSpots : List Nat := List.range' 1 25

/-- The row table of `get_spot_coordinate` (`std.py`), as written. -/
def rowsTable : List (List Nat) :=
  [[1, 2, 3, 4, 5],
   [6, 7, 8, 9, 10],
   [11, 12, 13, 14, 15],
   [16, 17, 18, 19, 20],
   [21, 22, 23, 24, 25]]

/-- The column table of `get_spot_coordinate` (`std.py`), as written. -/
def colsTable : List (List Nat) :=
  [[1, 6, 11, 16, 21],
   [2, 7, 12, 17, 22],
   [3, 8, 13, 18, 23],
   [4, 9, 14, 19, 24],
   [5, 10, 15, 20, 25]]

/-- `std.get_spot_coordinate`: the 1-indexed `(row, col)` of a spot on the
5x5 plate, found by first-match search of the row and column tables; a
`ValueError` is raised for a spot number outside `[1, 25]`. -/
def get_spot_coordinate (spot_num : Nat) : Except String (Nat × Nat) :=
  if 1 ≤ spot_num ∧ spot_num ≤ 25 then
    .ok (rowsTable.findIdx (fun row => decide (spot_num ∈ row)) + 1,
         colsTable.findIdx (fun col => decide (spot_num ∈ col)) + 1)
  else
    .error "ValueError: the value for spot_num must be an integer from 1 to 25"

/-- `std.get_spot_position_difference`: the `(h, v)` pair of the absolute
horizontal (column) and vertical (row) offsets between two spots. -/
def get_spot_position_difference (s1 s2 : Nat) : Except String (Nat × Nat) := do
  let c1 ← get_spot_coordinate s1
  let c2 ← get_spot_coordinate s2
  let v := ((c1.1 : Int) - (c2.1 : Int)).natAbs
  let h := ((c1.2 : Int) - (c2.2 : Int)).natAbs
  return (h, v)

/-! ## Randomization engine (`std.get_random_for_plate`)

`random.sample(xrange(1,26), n)` draws `n` distinct spots without
replacement.  CPython's sampler keeps a pool of the not-yet-chosen
elements; each round an index into the pool is produced from the random
source, the element at that index is selected, its slot is overwritten
with the last pool element, and the pool shrinks by one.  The random
source is abstracted as `pick`, an arbitrary stream of naturals; the
index used in round `i` is `pick i` reduced modulo the pool size. -/

/-- One without-replacement selection from the pool `avail` at index `j`:
the chosen element, and the shrunken pool (the chosen slot is
overwritten with the last element, then the last slot is dropped). -/
def sampleSelect (avail : List Nat) (j : Nat) : Nat × List Nat :=
  (avail.getD j 0, (avail.set j (avail.getLast?.getD 0)).dropLast)

/-- The selection loop of `random.sample`: `k` rounds over the pool
`avail`, drawing indices from `pick` starting at round `i`. -/
def sampleLoop (pick : Nat → Nat) : Nat → Nat → List Nat → List Nat
  | _, 0, _ => []
  | i, k + 1, avail =>
    if avail.length = 0 then []
    else
      let j := pick i % avail.length
      (sampleSelect avail j).1 :: sampleLoop pick (i + 1) k (sampleSelect avail j).2

/-- `std.get_random_for_plate`: a list of `n` random spots of a 25-spot
SETL plate, via `random.sample(xrange(1,26), n)`.  `random.sample`
raises a `ValueError` when the requested size exceeds the population. -/
def get_random_for_plate (pick : Nat → Nat) (n : Nat) : Except String (List Nat) :=
  if n ≤ 25 then .ok (sampleLoop pick 0 n allSpots)
  else .error "ValueError: sample larger than population"

/-- `get_random_for_plate` with the random stream already advanced to
round `i0`: used when a caller draws several samples in sequence from
the one global Mersenne Twister stream. -/
def get_random_for_plate_from (pick : Nat → Nat) (i0 n : Nat) :
    Except String (List Nat) :=
  if n ≤ 25 then .ok (sampleLoop pick i0 n allSpots)
  else .error "ValueError: sample larger than population"

/-! ## Aggregation layer (`spot_preference.Start`)

The `species_spots_1` table is a list of plate records (a plate ID and
25 presence flags `rec_sur1 .. rec_sur25`); the two totals tables are
lists of rows `(pla_id, area_a, area_b, area_c, area_d)`.  Each
`set_plate_area_totals_*` run first issues `DELETE FROM` on its table
and fully rewrites it, so the run is modelled as returning the fresh
table contents. -/

/-- A row of the `species_spots_1` table: a plate ID and the 25
presence flags `rec_sur1 .. rec_sur25`. -/
structure PlateRecord where
  id : Nat
  flags : List Bool
deriving Repr, DecidableEq

/-- The `area_totals` accumulator dictionary `{'A': 0, 'B': 0, 'C': 0, 'D': 0}`. -/
structure AreaTotals where
  a : Nat
  b : Nat
  c : Nat
  d : Nat
deriving Repr, DecidableEq

/-- A row of `plate_area_totals_observed` / `plate_area_totals_expected`:
`(pla_id, area_a, area_b, area_c, area_d)`. -/
structure TotalsRow where
  pla_id : Nat
  area_a : Nat
  area_b : Nat
  area_c : Nat
  area_d : Nat
deriving Repr, DecidableEq

/-- `enumerate(record[1:], start=1)` filtered to the positive spots: the
spot numbers (from `i` on) whose presence flag is truthy. -/
def occupiedSpots : Nat → List Bool → List Nat
  | _, [] => []
  | i, flag :: rest =>
    if flag then i :: occupiedSpots (i + 1) rest else occupiedSpots (i + 1) rest

/-- The inner loop over `area2spots`: first-match bucketing of one spot
into the `area_totals` accumulator.  The source iterates the dictionary
and `break`s at the first area containing the spot; the areas are
written here in the literal's A, B, C, D order (the four cell lists are
pairwise disjoint, so the iteration order cannot change the result). -/
def addSpot (t : AreaTotals) (spot : Nat) : AreaTotals :=
  if spot ∈ cellsA then { t with a := t.a + 1 }
  else if spot ∈ cellsB then { t with b := t.b + 1 }
  else if spot ∈ cellsC then { t with c := t.c + 1 }
  else if spot ∈ cellsD then { t with d := t.d + 1 }
  else t

/-- Bucketing a list of spots into the four areas, starting from the
all-zero accumulator. -/
def area_totals_of (spots : List Nat) : AreaTotals :=
  spots.foldl addSpot ⟨0, 0, 0, 0⟩

/-- The row of `plate_area_totals_observed` written for one record of
`species_spots_1`. -/
def observedRow (r : PlateRecord) : TotalsRow :=
  let t := area_totals_of (occupiedSpots 1 r.flags)
  ⟨r.id, t.a, t.b, t.c, t.d⟩

/-- `Start.set_plate_area_totals_observed`: empty the observed-totals
table, then write one row per record of `species_spots_1`, bucketing
each record's positive spots into the four areas first-match. -/
def set_plate_area_totals_observed (records : List PlateRecord) : List TotalsRow :=
  records.map observedRow

/-- The per-row loop of `Start.set_plate_area_totals_expected`:
for each observed row, the number of positive spots is the sum of its
four area totals, that many random spots are drawn, and the random
spots are bucketed into a parallel expected row.  `i0` is the position
already consumed from the random stream. -/
def expectedRows (pick : Nat → Nat) : Nat → List TotalsRow → Except String (List TotalsRow)
  | _, [] => .ok []
  | i0, row :: rest => do
    let n_spots := row.area_a + row.area_b + row.area_c + row.area_d
    let random_spots ← get_random_for_plate_from pick i0 n_spots
    let t := area_totals_of random_spots
    let tail ← expectedRows pick (i0 + n_spots) rest
    return ⟨row.pla_id, t.a, t.b, t.c, t.d⟩ :: tail

/-- `Start.set_plate_area_totals_expected`: empty the expected-totals
table, then write one row per row of the observed-totals table. -/
def set_plate_area_totals_expected (pick : Nat → Nat) (obs : List TotalsRow) :
    Except String (List TotalsRow) :=
  expectedRows pick 0 obs

/-- The number of positive spots of record `r` lying in area `x`
(specification-side count, against which the observed rows are checked). -/
def regionCount (x : Area) (r : PlateRecord) : Nat :=
  ((occupiedSpots 1 r.flags).filter fun s => decide (s ∈ spotCells x)).length

/-- The `n_spots` computed for a totals row: the sum of its four area
counts. -/
def rowSum (row : TotalsRow) : Nat :=
  row.area_a + row.area_b + row.area_c + row.area_d

/-! ## Python dictionaries

Association lists with Python `dict` access semantics: lookup by key,
in-place update of an existing key, and `KeyError` on `d[k] += v` for an
absent key. -/

/-- `d[k]`, as an `Option`. -/
def pyGet {α : Type} (d : List (String × α)) (k : String) : Option α :=
  (d.find? fun p => p.1 == k).map Prod.snd

/-- `d[k] = v` for a key already present: update in place, preserving
insertion order. -/
def pySet {α : Type} (d : List (String × α)) (k : String) (v : α) :
    List (String × α) :=
  d.map fun p => if p.1 = k then (k, v) else p

/-- `d[k] += v`: `KeyError` when `k` is absent. -/
def pyAddAt {α : Type} [Add α] (d : List (String × α)) (k : String) (v : α) :
    Except String (List (String × α)) :=
  match pyGet d k with
  | some old => .ok (pySet d k (old + v))
  | none => .error ("KeyError: " ++ k)

/-- `for v in vals: d[k] += v`. -/
def accumAdd {α : Type} [Add α] (d : List (String × α)) (k : String)
    (vals : List α) : Except String (List (String × α)) :=
  vals.foldlM (fun d v => pyAddAt d k v) d

/-- `d[k] = v` with `dict` assignment semantics: update the key in place
when present, append it otherwise. -/
def pyUpsert {α : Type} (d : List (String × α)) (k : String) (v : α) :
    List (String × α) :=
  if (pyGet d k).isSome then pySet d k v else d ++ [(k, v)]

/-! ## Significance testing layer (`spot_preference.Start`)

The rank-sum test itself runs in R (`rpy.r` in `std.wilcox_test`), an
external collaborator; it is abstracted as an oracle producing a
p-value, which is either a number or `NaN`.  The comparison
`p_value < alpha` follows IEEE semantics: a comparison against `NaN` is
false. -/

/-- A p-value as returned by `float(sig_result['p.value'])`: a number or
`NaN`. -/
inductive PValue : Type
  | nan
  | val (q : ℚ)
deriving DecidableEq, Repr

/-- The Python comparison `p_value < alpha`: false when `p_value` is
`NaN` (IEEE comparison semantics). -/
def pltB (p : PValue) (alpha : ℚ) : Bool :=
  match p with
  | .nan => false
  | .val q => decide (q < alpha)

/-- The source's guard `p_value != 'nan'`: in Python 2 a `float` never
equals a `str`, so this comparison is always true (the guard is dead
code; the `NaN` case is nevertheless excluded because `NaN < alpha` is
already false). -/
def pyNeNanStr (_p : PValue) : Bool := true

/-- `setlyze.std`'s arithmetic mean `sum(x, 0.0) / len(x)` (the module
ships it as `average`; `spot_preference` calls it as `setlyze.std.mean`),
modelled exactly over the rationals. -/
def mean (x : List Nat) : ℚ := (x.sum : ℚ) / x.length

/-- The eight fixed area groups the rank-sum tests run on, as listed in
`calculate_significance_wilcoxon` and
`calculate_significance_wilcoxon_repeats`. -/
def areaGroups : List (List Area) :=
  [[.A], [.B], [.C], [.D], [.A, .B], [.C, .D], [.A, .B, .C], [.B, .C, .D]]

/-- The label of an area. -/
def areaName : Area → String
  | .A => "A"
  | .B => "B"
  | .C => "C"
  | .D => "D"

/-- `"+".join(area_group)`: the human-readable group label. -/
def groupStr (g : List Area) : String :=
  String.intercalate "+" (g.map areaName)

/-- The area column of a totals row named by an area. -/
def areaField (row : TotalsRow) : Area → Nat
  | .A => row.area_a
  | .B => row.area_b
  | .C => row.area_c
  | .D => row.area_d

/-- Modelled from the spec: `setlyze.database`'s `get_area_totals(table,
area_group)` is not under `src/`; per the spec ("pull per-plate
positive-cell counts for that region-group from Observed and from
Expected, as flat numeric sequences, one value per plate") it returns,
for each row of the table, that plate's positive-spot count summed over
the areas of the group. -/
def get_area_totals (table : List TotalsRow) (group : List Area) : List Nat :=
  table.map fun row => (group.map fun a => areaField row a).sum

/-- One group's repeat tally: the
`{'n_significant': 0, 'n_preference': 0, 'n_rejection': 0}` record. -/
structure Tally where
  n_significant : Nat
  n_preference : Nat
  n_rejection : Nat
deriving DecidableEq, Repr

/-- `statistics['repeats']`: the per-group-label tally dictionary,
modelled as a finitely supported function (a key not yet inserted maps
to `none`). -/
def RepeatStats : Type := String → Option Tally

/-- Dictionary entry assignment for `RepeatStats`. -/
def updateStats (st : RepeatStats) (key : String) (t : Tally) : RepeatStats :=
  fun k => if k = key then some t else st k

/-- The body of the per-group loop of
`Start.calculate_significance_wilcoxon_repeats`: initialise the group's
tally if absent, pull the two flat sequences, skip the group when either
has fewer than 2 values, otherwise run the rank-sum oracle and update
the tallies from the p-value and the two means. -/
def processGroup (alpha : ℚ) (wilcox : List Nat → List Nat → PValue)
    (obsT expT : List TotalsRow) (st : RepeatStats) (g : List Area) :
    RepeatStats :=
  let s := groupStr g
  let st1 := if (st s).isNone then updateStats st s ⟨0, 0, 0⟩ else st
  let observed := get_area_totals obsT g
  let expected := get_area_totals expT g
  if observed.length < 2 ∨ expected.length < 2 then st1
  else
    let mean_observed := mean observed
    let mean_expected := mean expected
    let p := wilcox observed expected
    if pltB p alpha && pyNeNanStr p then
      let t0 := (st1 s).getD ⟨0, 0, 0⟩
      let t1 := { t0 with n_significant := t0.n_significant + 1 }
      let t2 :=
        if mean_observed > mean_expected then
          { t1 with n_preference := t1.n_preference + 1 }
        else
          { t1 with n_rejection := t1.n_rejection + 1 }
      updateStats st1 s t2
    else st1

/-- `Start.calculate_significance_wilcoxon_repeats`: one invocation of
the repeat-variant significance test over the eight fixed groups. -/
def calculate_significance_wilcoxon_repeats (alpha : ℚ)
    (wilcox : List Nat → List Nat → PValue) (obsT expT : List TotalsRow)
    (st : RepeatStats) : RepeatStats :=
  areaGroups.foldl (processGroup alpha wilcox obsT expT) st

/-- One detailed rank-sum result record of
`Start.calculate_significance_wilcoxon` (attributes and results that do
not come back from R verbatim). -/
structure WilcoxonStat where
  plate_area : String
  n : Nat
  n_sp_observed : Nat
  n_sp_expected : Nat
  conf_level : ℚ
  p_value : PValue
  mean_observed : ℚ
  mean_expected : ℚ
deriving DecidableEq, Repr

/-- `Start.calculate_significance_wilcoxon`: the non-repeated rank-sum
pass over the eight fixed groups, skipping groups with fewer than 2
values on either side. -/
def calculate_significance_wilcoxon (alpha : ℚ)
    (wilcox : List Nat → List Nat → PValue) (obsT expT : List TotalsRow) :
    List WilcoxonStat :=
  areaGroups.foldl
    (fun acc g =>
      let observed := get_area_totals obsT g
      let expected := get_area_totals expT g
      if observed.length < 2 ∨ expected.length < 2 then acc
      else
        acc ++ [⟨groupStr g, observed.length, observed.sum, expected.sum,
                 1 - alpha, wilcox observed expected, mean observed,
                 mean expected⟩])
    []

/-! ## User-defined plate areas (`spot_preference.Start`) -/

/-- The fixed bucket names the accumulator dictionaries of
`get_defined_areas_totals_observed` and `get_area_probabilities` are
pre-initialised with. -/
def bucketNames : List String := ["area1", "area2", "area3", "area4"]

/-- `Start.get_defined_areas_totals_observed`: sum the per-plate totals
of each user-defined area into a pre-initialised
`{'area1': 0, ..., 'area4': 0}` dictionary, then delete the bucket names
not present in the user's definition. -/
def get_defined_areas_totals_observed (definition : List (String × List Area))
    (obsT : List TotalsRow) : Except String (List (String × Nat)) := do
  let init : List (String × Nat) :=
    [("area1", 0), ("area2", 0), ("area3", 0), ("area4", 0)]
  let filled ← definition.foldlM
    (fun d e => accumAdd d e.1 (get_area_totals obsT e.2)) init
  return filled.filter fun p => decide (p.1 ∈ definition.map Prod.fst)

/-- The fixed per-area probabilities `{'A': 4/25.0, 'B': 12/25.0,
'C': 8/25.0, 'D': 1/25.0}` of `Start.get_area_probabilities`. -/
def regionProb : Area → ℚ
  | .A => 4 / 25
  | .B => 12 / 25
  | .C => 8 / 25
  | .D => 1 / 25

/-- `Start.get_area_probabilities`: add up the constituent areas'
probabilities for each user-defined bucket in a pre-initialised
`{'area1': 0, ..., 'area4': 0}` dictionary, then delete the bucket names
not present in the user's definition. -/
def get_area_probabilities (definition : List (String × List Area)) :
    Except String (List (String × ℚ)) := do
  let init : List (String × ℚ) :=
    [("area1", 0), ("area2", 0), ("area3", 0), ("area4", 0)]
  let filled ← definition.foldlM
    (fun d e => accumAdd d e.1 (e.2.map regionProb)) init
  return filled.filter fun p => decide (p.1 ∈ definition.map Prod.fst)

/-- The record of one chi-squared invocation, as unpacked from the R
result by `Start.calculate_significance_chisq`; the test itself runs in
R and is abstracted as an oracle. -/
structure ChisqResult where
  statistic : ℚ
  p_value : PValue
  df : ℚ
  expected : List ℚ
deriving DecidableEq, Repr

/-- `Start.calculate_significance_chisq`: compute the user-area
probabilities, then hand the observed bucket totals and the
probabilities to the chi-squared oracle. -/
def calculate_significance_chisq
    (chisq : List Nat → List ℚ → ChisqResult)
    (chisq_observed : List (String × Nat))
    (definition : List (String × List Area)) : Except String ChisqResult := do
  let probabilities ← get_area_probabilities definition
  return chisq (chisq_observed.map Prod.snd) (probabilities.map Prod.snd)

/-! ## Analysis run (`spot_preference.Start.run` and `repeat_test`) -/

/-- The analysis state threaded through the repeat loop: the two totals
tables and the running repeat tallies. -/
structure AnalysisState where
  obsTable : List TotalsRow
  expTable : List TotalsRow
  repeats : RepeatStats

/-- One repeat: recompute the expected table from the observed one, then
run the tallying significance test on the fresh expected table. -/
def repeat_step (alpha : ℚ) (wilcox : List Nat → List Nat → PValue)
    (pick : Nat → Nat) (st : AnalysisState) : Except String AnalysisState := do
  let exp ← set_plate_area_totals_expected pick st.obsTable
  return { st with
    expTable := exp
    repeats := calculate_significance_wilcoxon_repeats alpha wilcox
      st.obsTable exp st.repeats }

/-- The loop of `Start.repeat_test`: `k` repeats starting at repeat
index `i` (each repeat draws from its own random stream `picks i`). -/
def repeat_loop (alpha : ℚ) (wilcox : List Nat → List Nat → PValue)
    (picks : Nat → Nat → Nat) :
    Nat → Nat → AnalysisState → Except String AnalysisState
  | _, 0, st => .ok st
  | i, k + 1, st => do
    let st1 ← repeat_step alpha wilcox (picks i) st
    repeat_loop alpha wilcox picks (i + 1) k st1

/-- `Start.repeat_test(number)`. -/
def repeat_test (alpha : ℚ) (wilcox : List Nat → List Nat → PValue)
    (picks : Nat → Nat → Nat) (number : Nat) (st : AnalysisState) :
    Except String AnalysisState :=
  repeat_loop alpha wilcox picks 0 number st

/-- The terminal outcome of `Start.run`: either the defined
`analysis-aborted` signal, or the `analysis-finished` signal carrying
the accumulated statistics. -/
inductive RunOutcome : Type
  | aborted
  | finished (wilcoxon : List WilcoxonStat) (chisq : ChisqResult)
      (repeats : RepeatStats) (chisq_observed : List (String × Nat))
      (expTable : List TotalsRow)

/-- `Start.run`: compute the observed table, aggregate the user-defined
bucket totals, and if their grand total is zero emit the
`analysis-aborted` signal and return — before the repeat loop and before
either statistical test.  Otherwise run the repeats, the final rank-sum
pass, and the chi-squared test.  (The expected table starts in its
on-disk state, empty for a fresh local database.) -/
def runAnalysis (records : List PlateRecord)
    (definition : List (String × List Area)) (alpha : ℚ) (n_repeats : Nat)
    (wilcox : List Nat → List Nat → PValue)
    (chisq : List Nat → List ℚ → ChisqResult)
    (picks : Nat → Nat → Nat) : Except String RunOutcome := do
  let obsT := set_plate_area_totals_observed records
  let chisq_observed ← get_defined_areas_totals_observed definition obsT
  let areas_total := (chisq_observed.map Prod.snd).sum
  if areas_total = 0 then
    return .aborted
  else
    let st ← repeat_test alpha wilcox picks n_repeats ⟨obsT, [], fun _ => none⟩
    let w := calculate_significance_wilcoxon alpha wilcox obsT st.expTable
    let c ← calculate_significance_chisq chisq chisq_observed definition
    return .finished w c st.repeats chisq_observed st.expTable

/-! ## Report assembly (`std.ReportGenerator` / `std.ReportReader`)

A fragment of the `xml.dom.minidom` document model: elements with
attributes and children, and text nodes.  `create_element` stringifies
the `text` argument with `str(...)`, so document text holds the Python
string rendering of whatever value was written; the reader hands back
`nodeValue.strip()` strings. -/

/-- A Python value as passed around by the report code: the observed
totals dictionary holds `int`s, the parsed document hands back `str`s.
Python 2 equality between an `int` and a `str` is always false. -/
inductive PyVal : Type
  | int (n : Int)
  | str (s : String)
deriving DecidableEq, Repr

/-- `str(v)` for a report value. -/
def pyStr : PyVal → String
  | .int n => toString n
  | .str s => s

/-- Python `==` on report values: cross-type comparison of an `int` and
a `str` is false in Python 2. -/
def pyValEq : PyVal → PyVal → Bool
  | .int n, .int m => n == m
  | .str s, .str t => s == t
  | _, _ => false

/-- `s.strip()`: remove leading and trailing whitespace. -/
def pyStrip (s : String) : String :=
  String.mk (((s.data.dropWhile Char.isWhitespace).reverse.dropWhile
    Char.isWhitespace).reverse)

/-- A node of the `xml.dom.minidom` tree. -/
inductive XmlNode : Type
  | element (name : String) (attrs : List (String × String))
      (children : List XmlNode)
  | text (s : String)

/-- Whether a node is an `ELEMENT_NODE` with local name `name`
(the test of `ReportReader.get_element`'s loop). -/
def isElementNamed (name : String) (c : XmlNode) : Bool :=
  match c with
  | .element n _ _ => n == name
  | .text _ => false

/-- `ReportGenerator.set_area_totals_observed`: the
`area_totals_observed` element, one `<area id="...">` child per bucket
holding the stringified total as its text. -/
def set_area_totals_observed (totals_observed : List (String × PyVal)) :
    XmlNode :=
  .element "area_totals_observed" []
    (totals_observed.map fun p =>
      .element "area" [("id", p.1)] [.text (pyStr p.2)])

/-- A minidom document whose single child is the `setlyze:report` root
element with the given children (as built by `ReportGenerator`). -/
def makeDocument (reportChildren : List XmlNode) : XmlNode :=
  .element "#document" []
    [.element "report" [("xmlns:setlyze", "http://www.gimaris.com/setlyze/")]
      reportChildren]

/-- `ReportReader.get_element`: first-match search for a named element
among the children of `doc.childNodes[0]`. -/
def get_element (doc : XmlNode) (name : String) : Option XmlNode :=
  match doc with
  | .element _ _ (root :: _) =>
    match root with
    | .element _ _ children => children.find? (isElementNamed name)
    | .text _ => none
  | _ => none

/-- `getAttribute`: minidom returns the empty string for an absent
attribute. -/
def getAttrFrom (attrs : List (String × String)) (key : String) : String :=
  (pyGet attrs key).getD ""

/-- The body of `ReportReader.get_area_totals_observed`'s loop: for each
`area` element child, `totals[area_id] = childNodes[0].nodeValue.strip()`
(an `area` element without a leading text node would crash the Python,
modelled as an error). -/
def parseAreaChild (acc : List (String × PyVal)) (c : XmlNode) :
    Except String (List (String × PyVal)) :=
  match c with
  | .element n attrs cs =>
    if n = "area" then
      match cs.head? with
      | some (.text s) => .ok (pyUpsert acc (getAttrFrom attrs "id")
          (.str (pyStrip s)))
      | some (.element _ _ _) => .error "AttributeError: nodeValue is None"
      | none => .error "IndexError: childNodes[0]"
    else .ok acc
  | .text _ => .ok acc

/-- `ReportReader.get_area_totals_observed`: find the
`area_totals_observed` element (`None` when absent) and collect its
`area` children into a dictionary of stripped text strings. -/
def get_area_totals_observed_reader (doc : XmlNode) :
    Except String (Option (List (String × PyVal))) :=
  match get_element doc "area_totals_observed" with
  | none => .ok none
  | some (.element _ _ children) =>
    (children.foldlM parseAreaChild []).map some
  | some (.text _) => .ok none

end Setlyze

namespace Setlyze

/-- Selecting index `j < avail.length` removes exactly the chosen element:
the chosen element consed onto the shrunken pool is a permutation of the
original pool. -/
theorem sampleSelect_perm :
    ∀ (avail : List Nat) (j : Nat), j < avail.length →
      ((sampleSelect avail j).1 :: (sampleSelect avail j).2).Perm avail := by
  intro avail
  induction avail with
  | nil => intro j hj; simp at hj
  | cons a l ih =>
    intro j hj
    match j with
    | 0 =>
      match l with
      | [] => simp [sampleSelect]
      | b :: l' =>
        have hne : (b :: l') ≠ [] := by simp
        have hlast : (a :: b :: l').getLast?.getD 0 = (b :: l').getLast hne := by
          rw [List.getLast?_cons_cons, List.getLast?_eq_getLast _ hne]
          rfl
        simp only [sampleSelect, List.getD_cons_zero, List.set_cons_zero, hlast]
        have hdrop : ((b :: l').getLast hne :: b :: l').dropLast
            = (b :: l').getLast hne :: (b :: l').dropLast := rfl
        rw [hdrop]
        refine List.Perm.cons a ?_
        have h1 : ((b :: l').getLast hne :: (b :: l').dropLast).Perm
            ((b :: l').dropLast ++ [(b :: l').getLast hne]) :=
          (List.perm_append_singleton _ _).symm
        have h2 : (b :: l').dropLast ++ [(b :: l').getLast hne] = b :: l' :=
          List.dropLast_append_getLast hne
        exact h1.trans (by rw [h2])
    | j' + 1 =>
      match l with
      | [] => simp at hj
      | b :: l' =>
        have hj' : j' < (b :: l').length := by
          simp only [List.length_cons] at hj ⊢; omega
        have hlast : (a :: b :: l').getLast?.getD 0 = (b :: l').getLast?.getD 0 := by
          rw [List.getLast?_cons_cons]
        simp only [sampleSelect, List.getD_cons_succ, List.set_cons_succ, hlast]
        have hne : (b :: l').set j' ((b :: l').getLast?.getD 0) ≠ [] := by
          intro hcontra
          have := congrArg List.length hcontra
          simp at this
        have hdrop : (a :: (b :: l').set j' ((b :: l').getLast?.getD 0)).dropLast
            = a :: ((b :: l').set j' ((b :: l').getLast?.getD 0)).dropLast := by
          match hset : (b :: l').set j' ((b :: l').getLast?.getD 0) with
          | [] => exact absurd hset hne
          | c :: m => rfl
        rw [hdrop]
        have step := ih j' hj'
        simp only [sampleSelect] at step
        have hswap : ((b :: l').getD j' 0 :: a ::
              ((b :: l').set j' ((b :: l').getLast?.getD 0)).dropLast).Perm
            (a :: (b :: l').getD j' 0 ::
              ((b :: l').set j' ((b :: l').getLast?.getD 0)).dropLast) :=
          List.Perm.swap a _ _
        exact hswap.trans (List.Perm.cons a step)

/-- The sampling loop always returns a sub-permutation of the pool. -/
theorem sampleLoop_subperm (pick : Nat → Nat) :
    ∀ (k i : Nat) (avail : List Nat), (sampleLoop pick i k avail).Subperm avail := by
  intro k
  induction k with
  | zero => intro i avail; simp [sampleLoop, List.nil_subperm]
  | succ k ih =>
    intro i avail
    rw [sampleLoop]
    by_cases h : avail.length = 0
    · simp [h, List.nil_subperm]
    · simp only [h, if_false]
      have hj : pick i % avail.length < avail.length :=
        Nat.mod_lt _ (Nat.pos_of_ne_zero h)
      have hperm := sampleSelect_perm avail (pick i % avail.length) hj
      have hsub := (List.subperm_cons (sampleSelect avail (pick i % avail.length)).1).mpr
        (ih (i + 1) (sampleSelect avail (pick i % avail.length)).2)
      exact hsub.trans hperm.subperm

/-- For `k` at most the pool size, the sampling loop returns exactly `k`
elements. -/
theorem sampleLoop_length (pick : Nat → Nat) :
    ∀ (k i : Nat) (avail : List Nat), k ≤ avail.length →
      (sampleLoop pick i k avail).length = k := by
  intro k
  induction k with
  | zero => intro i avail _; rfl
  | succ k ih =>
    intro i avail hk
    rw [sampleLoop]
    have h : avail.length ≠ 0 := by omega
    simp only [h, if_false, List.length_cons]
    have hj : pick i % avail.length < avail.length :=
      Nat.mod_lt _ (Nat.pos_of_ne_zero h)
    have hperm := sampleSelect_perm avail (pick i % avail.length) hj
    have hlen := hperm.length_eq
    simp only [List.length_cons] at hlen
    rw [ih (i + 1) _ (by omega)]

/-- When `k` equals the pool size, the sampling loop returns a
permutation of the whole pool. -/
theorem sampleLoop_perm (pick : Nat → Nat) :
    ∀ (k i : Nat) (avail : List Nat), k = avail.length →
      (sampleLoop pick i k avail).Perm avail := by
  intro k
  induction k with
  | zero =>
    intro i avail hk
    have : avail = [] := List.length_eq_zero.mp hk.symm
    simp [this, sampleLoop]
  | succ k ih =>
    intro i avail hk
    rw [sampleLoop]
    have h : avail.length ≠ 0 := by omega
    simp only [h, if_false]
    have hj : pick i % avail.length < avail.length :=
      Nat.mod_lt _ (Nat.pos_of_ne_zero h)
    have hperm := sampleSelect_perm avail (pick i % avail.length) hj
    have hlen := hperm.length_eq
    simp only [List.length_cons] at hlen
    have hk' : k = (sampleSelect avail (pick i % avail.length)).2.length := by omega
    exact (List.Perm.cons _ (ih (i + 1) _ hk')).trans hperm

/-- C4 — The fixed region-membership table partitions the 25 cells: the
four cell lists have sizes 4, 12, 8, 1, their concatenation is a
permutation of `{1, ..., 25}` (so they are pairwise disjoint and
exhaustive), and every cell index in `[1, 25]` belongs to exactly one
area, making first-match bucketing total and well-defined. -/
theorem area_partition_exact :
    cellsA.length = 4 ∧ cellsB.length = 12 ∧ cellsC.length = 8 ∧
    cellsD.length = 1 ∧
    (cellsA ++ cellsB ++ cellsC ++ cellsD).Perm allSpots ∧
    (∀ n ∈ allSpots, ∃ a : Area, n ∈ spotCells a ∧
      ∀ b : Area, n ∈ spotCells b → b = a) := by
  decide

/-- Every spot in `[1, 25]` lies in one of the four areas. -/
theorem area_cases : ∀ s ∈ allSpots,
    s ∈ cellsA ∨ s ∈ cellsB ∨ s ∈ cellsC ∨ s ∈ cellsD := by
  decide

/-- A corner spot lies in no other area. -/
theorem cellsA_not_others : ∀ s ∈ cellsA,
    s ∉ cellsB ∧ s ∉ cellsC ∧ s ∉ cellsD := by decide

/-- A border spot lies in no other area. -/
theorem cellsB_not_others : ∀ s ∈ cellsB,
    s ∉ cellsA ∧ s ∉ cellsC ∧ s ∉ cellsD := by decide

/-- An inner-ring spot lies in no other area. -/
theorem cellsC_not_others : ∀ s ∈ cellsC,
    s ∉ cellsA ∧ s ∉ cellsB ∧ s ∉ cellsD := by decide

/-- The center spot lies in no other area. -/
theorem cellsD_not_others : ∀ s ∈ cellsD,
    s ∉ cellsA ∧ s ∉ cellsB ∧ s ∉ cellsC := by decide

/-- First-match bucketing of spots from `[1, 25]` counts, in each area
field, exactly the spots lying in that area's cells. -/
theorem foldl_addSpot_eq (spots : List Nat) :
    ∀ t : AreaTotals, (∀ s ∈ spots, s ∈ allSpots) →
      spots.foldl addSpot t =
        ⟨t.a + (spots.filter fun s => decide (s ∈ cellsA)).length,
         t.b + (spots.filter fun s => decide (s ∈ cellsB)).length,
         t.c + (spots.filter fun s => decide (s ∈ cellsC)).length,
         t.d + (spots.filter fun s => decide (s ∈ cellsD)).length⟩ := by
  induction spots with
  | nil => intro t _; simp [List.filter]
  | cons s rest ih =>
    intro t hmem
    have hs := hmem s (List.mem_cons_self s rest)
    have hrest : ∀ x ∈ rest, x ∈ allSpots := fun x hx =>
      hmem x (List.mem_cons_of_mem s hx)
    rw [List.foldl_cons]
    rcases area_cases s hs with hA | hB | hC | hD
    · obtain ⟨hnB, hnC, hnD⟩ := cellsA_not_others s hA
      rw [ih _ hrest]
      simp only [addSpot, if_pos hA, List.filter_cons, hA, hnB, hnC, hnD,
        decide_eq_true_eq, decide_not, if_true, if_false]
      simp [hA, hnB, hnC, hnD]
      omega
    · obtain ⟨hnA, hnC, hnD⟩ := cellsB_not_others s hB
      rw [ih _ hrest]
      simp only [addSpot, if_neg hnA, if_pos hB, List.filter_cons]
      simp [hB, hnA, hnC, hnD]
      omega
    · obtain ⟨hnA, hnB, hnD⟩ := cellsC_not_others s hC
      rw [ih _ hrest]
      simp only [addSpot, if_neg hnA, if_neg hnB, if_pos hC, List.filter_cons]
      simp [hC, hnA, hnB, hnD]
      omega
    · obtain ⟨hnA, hnB, hnC⟩ := cellsD_not_others s hD
      rw [ih _ hrest]
      simp only [addSpot, if_neg hnA, if_neg hnB, if_neg hnC, if_pos hD,
        List.filter_cons]
      simp [hD, hnA, hnB, hnC]
      omega

/-- The four per-area filters of a list of spots from `[1, 25]` cover it
exactly once: their lengths sum to the length of the list. -/
theorem filter_area_length_sum (spots : List Nat) :
    (∀ s ∈ spots, s ∈ allSpots) →
      (spots.filter fun s => decide (s ∈ cellsA)).length
        + (spots.filter fun s => decide (s ∈ cellsB)).length
        + (spots.filter fun s => decide (s ∈ cellsC)).length
        + (spots.filter fun s => decide (s ∈ cellsD)).length
        = spots.length := by
  induction spots with
  | nil => intro _; simp [List.filter]
  | cons s rest ih =>
    intro hmem
    have hs := hmem s (List.mem_cons_self s rest)
    have hrest : ∀ x ∈ rest, x ∈ allSpots := fun x hx =>
      hmem x (List.mem_cons_of_mem s hx)
    have hih := ih hrest
    rcases area_cases s hs with hA | hB | hC | hD
    · obtain ⟨hnB, hnC, hnD⟩ := cellsA_not_others s hA
      simp only [List.filter_cons]
      simp [hA, hnB, hnC, hnD]
      omega
    · obtain ⟨hnA, hnC, hnD⟩ := cellsB_not_others s hB
      simp only [List.filter_cons]
      simp [hB, hnA, hnC, hnD]
      omega
    · obtain ⟨hnA, hnB, hnD⟩ := cellsC_not_others s hC
      simp only [List.filter_cons]
      simp [hC, hnA, hnB, hnD]
      omega
    · obtain ⟨hnA, hnB, hnC⟩ := cellsD_not_others s hD
      simp only [List.filter_cons]
      simp [hD, hnA, hnB, hnC]
      omega

/-- The positive spot numbers of a record enumerated from `i` lie in
`[i, i + number of flags)`. -/
theorem occupiedSpots_bounds : ∀ (flags : List Bool) (i : Nat),
    ∀ s ∈ occupiedSpots i flags, i ≤ s ∧ s < i + flags.length := by
  intro flags
  induction flags with
  | nil => intro i s hs; simp [occupiedSpots] at hs
  | cons flag rest ih =>
    intro i s hs
    rw [occupiedSpots] at hs
    by_cases hf : flag
    · rw [if_pos hf] at hs
      rcases List.mem_cons.mp hs with heq | htail
      · subst heq; simp
      · have := ih (i + 1) s htail
        simp only [List.length_cons]
        omega
    · rw [if_neg hf] at hs
      have := ih (i + 1) s hs
      simp only [List.length_cons]
      omega

/-- C1 — For every plate record processed by
`set_plate_area_totals_observed` (a plate ID and 25 presence flags),
the row written to the observed table has four region counts that equal
the number of occupied cells of the record lying in regions A, B, C and
D respectively, and the four counts sum to the record's total number of
occupied cells. -/
theorem observed_totals_row_correct (records : List PlateRecord)
    (r : PlateRecord) (hr : r ∈ records) (hlen : r.flags.length = 25) :
    observedRow r ∈ set_plate_area_totals_observed records ∧
    (observedRow r).pla_id = r.id ∧
    (observedRow r).area_a = regionCount .A r ∧
    (observedRow r).area_b = regionCount .B r ∧
    (observedRow r).area_c = regionCount .C r ∧
    (observedRow r).area_d = regionCount .D r ∧
    (observedRow r).area_a + (observedRow r).area_b + (observedRow r).area_c
      + (observedRow r).area_d = (occupiedSpots 1 r.flags).length := by
  have hmem : ∀ s ∈ occupiedSpots 1 r.flags, s ∈ allSpots := by
    intro s hs
    have hb := occupiedSpots_bounds r.flags 1 s hs
    rw [hlen] at hb
    exact List.mem_range'_1.mpr ⟨hb.1, by omega⟩
  have hfold := foldl_addSpot_eq (occupiedSpots 1 r.flags) ⟨0, 0, 0, 0⟩ hmem
  have hsum := filter_area_length_sum (occupiedSpots 1 r.flags) hmem
  refine ⟨List.mem_map_of_mem observedRow hr, rfl, ?_, ?_, ?_, ?_, ?_⟩ <;>
    simp only [observedRow, regionCount, area_totals_of, spotCells, hfold] <;>
    omega

/-- C1 witness: the spec's own worked example, a single plate occupying
cells `{1, 2, 5}`, yields the row `A = 2, B = 1, C = 0, D = 0`. -/
theorem observed_totals_row_correct_witness :
    (⟨1, [true, true, false, false, true,
         false, false, false, false, false,
         false, false, false, false, false,
         false, false, false, false, false,
         false, false, false, false, false]⟩ : PlateRecord) ∈
        [(⟨1, [true, true, false, false, true,
           false, false, false, false, false,
           false, false, false, false, false,
           false, false, false, false, false,
           false, false, false, false, false]⟩ : PlateRecord)] ∧
    observedRow ⟨1, [true, true, false, false, true,
         false, false, false, false, false,
         false, false, false, false, false,
         false, false, false, false, false,
         false, false, false, false, false]⟩ = ⟨1, 2, 1, 0, 0⟩ ∧
    (observedRow ⟨1, [true, true, false, false, true,
         false, false, false, false, false,
         false, false, false, false, false,
         false, false, false, false, false,
         false, false, false, false, false]⟩).area_a = regionCount .A
      ⟨1, [true, true, false, false, true,
         false, false, false, false, false,
         false, false, false, false, false,
         false, false, false, false, false,
         false, false, false, false, false]⟩ := by
  refine ⟨by decide, by decide, ?_⟩
  exact (observed_totals_row_correct _ _ (List.mem_singleton.mpr rfl)
    (by decide)).2.2.1

/-- C5 — For every `n ≤ 25` and every random stream, the plate
randomizer returns a list of exactly `n` pairwise-distinct integers,
each within `[1, 25]`; for `n = 25` the result is a permutation of
`{1, ..., 25}`. -/
theorem get_random_for_plate_spec (pick : Nat → Nat) (n : Nat) (h : n ≤ 25) :
    ∃ l, get_random_for_plate pick n = .ok l ∧ l.length = n ∧ l.Nodup ∧
      (∀ x ∈ l, 1 ≤ x ∧ x ≤ 25) ∧ (n = 25 → l.Perm allSpots) := by
  refine ⟨sampleLoop pick 0 n allSpots, ?_, ?_, ?_, ?_, ?_⟩
  · simp [get_random_for_plate, h]
  · exact sampleLoop_length pick n 0 allSpots (by simpa [allSpots] using h)
  · obtain ⟨m, hp, hsub⟩ := sampleLoop_subperm pick n 0 allSpots
    exact hp.nodup_iff.mp (hsub.nodup (by decide))
  · intro x hx
    have hx' := (sampleLoop_subperm pick n 0 allSpots).subset hx
    have := List.mem_range'_1.mp hx'
    omega
  · intro h25
    exact sampleLoop_perm pick n 0 allSpots (by simp [allSpots, h25])

/-- C5 witness: a concrete draw of 25 spots with an explicit stream is a
permutation of the plate, and a draw of 3 spots has 3 distinct members. -/
theorem get_random_for_plate_spec_witness :
    (3 ≤ 25 ∧ ∃ l, get_random_for_plate (fun i => 7 * i + 3) 3 = .ok l ∧
      l.length = 3 ∧ l.Nodup ∧ (∀ x ∈ l, 1 ≤ x ∧ x ≤ 25) ∧
      (3 = 25 → l.Perm allSpots)) ∧
    (∃ l, get_random_for_plate (fun i => i * i) 25 = .ok l ∧
      l.length = 25 ∧ l.Nodup ∧ (∀ x ∈ l, 1 ≤ x ∧ x ≤ 25) ∧
      (25 = 25 → l.Perm allSpots)) :=
  ⟨⟨by decide, get_random_for_plate_spec (fun i => 7 * i + 3) 3 (by decide)⟩,
   get_random_for_plate_spec (fun i => i * i) 25 (by decide)⟩

/-- C8 — `get_spot_coordinate` maps each cell index in `[1, 25]` to its
1-indexed row-major `(row, column)` position on the 5x5 grid, and
`get_spot_position_difference` returns the componentwise absolute
coordinate offsets (horizontal first, vertical second); both are pure
functions of their arguments. -/
theorem spot_geometry_correct :
    (∀ n, 1 ≤ n → n ≤ 25 →
      get_spot_coordinate n = .ok ((n - 1) / 5 + 1, (n - 1) % 5 + 1)) ∧
    (∀ s1 s2, 1 ≤ s1 → s1 ≤ 25 → 1 ≤ s2 → s2 ≤ 25 →
      get_spot_position_difference s1 s2 =
        .ok ((((s1 - 1) % 5 : Nat) : Int) - (((s2 - 1) % 5 : Nat) : Int) |>.natAbs,
             ((((s1 - 1) / 5 : Nat) : Int) - (((s2 - 1) / 5 : Nat) : Int)).natAbs)) := by
  constructor
  · have key : ∀ n ∈ Finset.Icc 1 25,
        get_spot_coordinate n = .ok ((n - 1) / 5 + 1, (n - 1) % 5 + 1) := by
      decide
    intro n h1 h2
    exact key n (Finset.mem_Icc.mpr ⟨h1, h2⟩)
  · have key : ∀ s1 ∈ Finset.Icc 1 25, ∀ s2 ∈ Finset.Icc 1 25,
        get_spot_position_difference s1 s2 =
          .ok ((((s1 - 1) % 5 : Nat) : Int) - (((s2 - 1) % 5 : Nat) : Int) |>.natAbs,
               ((((s1 - 1) / 5 : Nat) : Int) - (((s2 - 1) / 5 : Nat) : Int)).natAbs) := by
      decide
    intro s1 s2 h1 h2 h3 h4
    exact key s1 (Finset.mem_Icc.mpr ⟨h1, h2⟩) s2 (Finset.mem_Icc.mpr ⟨h3, h4⟩)

/-- C8 witness: cell 1 maps to `(1, 1)`, cell 14 to `(3, 4)`, and the
position difference between cells 1 and 25 is `(4, 4)`. -/
theorem spot_geometry_correct_witness :
    get_spot_coordinate 1 = .ok (1, 1) ∧
    get_spot_coordinate 14 = .ok (3, 4) ∧
    get_spot_position_difference 1 25 = .ok (4, 4) :=
  ⟨spot_geometry_correct.1 1 (by decide) (by decide),
   spot_geometry_correct.1 14 (by decide) (by decide),
   spot_geometry_correct.2 1 25 (by decide) (by decide) (by decide) (by decide)⟩

/-- An entry assignment leaves every other key of a `RepeatStats`
dictionary unchanged. -/
theorem updateStats_apply_ne (st : RepeatStats) (key k : String) (t : Tally)
    (h : k ≠ key) : updateStats st key t k = st k := by
  simp [updateStats, h]

/-- One group's pass of the repeat test touches no other group's tally. -/
theorem processGroup_apply_ne (alpha : ℚ) (wilcox : List Nat → List Nat → PValue)
    (obsT expT : List TotalsRow) (st : RepeatStats) (g : List Area) (k : String)
    (h : k ≠ groupStr g) :
    processGroup alpha wilcox obsT expT st g k = st k := by
  simp only [processGroup]
  split_ifs <;> simp [updateStats, h]

/-- Folding the per-group pass over groups whose label differs from `k`
leaves the tally at `k` unchanged. -/
theorem foldl_processGroup_apply_ne (alpha : ℚ)
    (wilcox : List Nat → List Nat → PValue) (obsT expT : List TotalsRow) :
    ∀ (gs : List (List Area)) (st : RepeatStats) (k : String),
      (∀ g ∈ gs, k ≠ groupStr g) →
      (gs.foldl (processGroup alpha wilcox obsT expT) st) k = st k := by
  intro gs
  induction gs with
  | nil => intro st k _; rfl
  | cons g rest ih =>
    intro st k hk
    rw [List.foldl_cons, ih _ k (fun g' hg' => hk g' (List.mem_cons_of_mem g hg')),
      processGroup_apply_ne _ _ _ _ _ _ _ (hk g (List.mem_cons_self g rest))]

/-- The tally a full invocation of the repeat test leaves at a group's
label equals the one produced by that group's own pass, run from a
dictionary that agrees with the original at that label. -/
theorem repeats_apply_eq (alpha : ℚ) (wilcox : List Nat → List Nat → PValue)
    (obsT expT : List TotalsRow) (st : RepeatStats) (g : List Area)
    (hg : g ∈ areaGroups) :
    ∃ st' : RepeatStats,
      calculate_significance_wilcoxon_repeats alpha wilcox obsT expT st
          (groupStr g)
        = processGroup alpha wilcox obsT expT st' g (groupStr g) ∧
      st' (groupStr g) = st (groupStr g) := by
  obtain ⟨gs1, gs2, hsplit⟩ := List.append_of_mem hg
  have hnd : (areaGroups.map groupStr).Nodup := by decide
  rw [hsplit] at hnd
  rw [List.map_append, List.map_cons] at hnd
  have hmid := List.nodup_middle.mp hnd
  obtain ⟨hnotmem, -⟩ := List.nodup_cons.mp hmid
  rw [List.mem_append] at hnotmem
  push_neg at hnotmem
  have h1 : ∀ g' ∈ gs1, groupStr g ≠ groupStr g' := by
    intro g' hg' heq
    exact hnotmem.1 (heq ▸ List.mem_map_of_mem groupStr hg')
  have h2 : ∀ g' ∈ gs2, groupStr g ≠ groupStr g' := by
    intro g' hg' heq
    exact hnotmem.2 (heq ▸ List.mem_map_of_mem groupStr hg')
  refine ⟨gs1.foldl (processGroup alpha wilcox obsT expT) st, ?_, ?_⟩
  · rw [calculate_significance_wilcoxon_repeats, hsplit, List.foldl_append,
      List.foldl_cons,
      foldl_processGroup_apply_ne alpha wilcox obsT expT gs2 _ _ h2]
  · exact foldl_processGroup_apply_ne alpha wilcox obsT expT gs1 st _ h1

/-- One group's pass, at its own label, performs exactly the tally
update prescribed by the p-value and the two means. -/
theorem processGroup_self_eq (alpha : ℚ) (wilcox : List Nat → List Nat → PValue)
    (obsT expT : List TotalsRow) (st : RepeatStats) (g : List Area)
    (h2o : 2 ≤ (get_area_totals obsT g).length)
    (h2e : 2 ≤ (get_area_totals expT g).length) :
    processGroup alpha wilcox obsT expT st g (groupStr g) =
      some (
        if pltB (wilcox (get_area_totals obsT g) (get_area_totals expT g))
            alpha then
          if mean (get_area_totals obsT g) > mean (get_area_totals expT g) then
            ⟨((st (groupStr g)).getD ⟨0, 0, 0⟩).n_significant + 1,
             ((st (groupStr g)).getD ⟨0, 0, 0⟩).n_preference + 1,
             ((st (groupStr g)).getD ⟨0, 0, 0⟩).n_rejection⟩
          else
            ⟨((st (groupStr g)).getD ⟨0, 0, 0⟩).n_significant + 1,
             ((st (groupStr g)).getD ⟨0, 0, 0⟩).n_preference,
             ((st (groupStr g)).getD ⟨0, 0, 0⟩).n_rejection + 1⟩
        else (st (groupStr g)).getD ⟨0, 0, 0⟩) := by
  have hskip : ¬ ((get_area_totals obsT g).length < 2 ∨
      (get_area_totals expT g).length < 2) := by omega
  by_cases hp : pltB (wilcox (get_area_totals obsT g) (get_area_totals expT g))
      alpha <;>
    by_cases hmean :
        mean (get_area_totals obsT g) > mean (get_area_totals expT g) <;>
      cases hs : st (groupStr g) <;>
        simp [processGroup, hskip, hp, hmean, hs, updateStats, pyNeNanStr]

/-- C2 — In each invocation of the repeat-variant significance test, for
every fixed area group whose observed and expected sequences both have
at least 2 values: the group's `n_significant` tally is incremented
exactly when the rank-sum p-value is below alpha; when it is, the
`n_preference` tally is incremented when the observed mean exceeds the
expected mean and otherwise the `n_rejection` tally is incremented; and
a `NaN` p-value leaves all three tallies unchanged. -/
theorem wilcoxon_repeats_tally_correct (alpha : ℚ)
    (wilcox : List Nat → List Nat → PValue) (obsT expT : List TotalsRow)
    (st : RepeatStats) (g : List Area) (hg : g ∈ areaGroups)
    (h2o : 2 ≤ (get_area_totals obsT g).length)
    (h2e : 2 ≤ (get_area_totals expT g).length) :
    ∃ t1 : Tally,
      calculate_significance_wilcoxon_repeats alpha wilcox obsT expT st
          (groupStr g) = some t1 ∧
      (t1.n_significant = ((st (groupStr g)).getD ⟨0, 0, 0⟩).n_significant +
        (if pltB (wilcox (get_area_totals obsT g) (get_area_totals expT g))
            alpha then 1 else 0)) ∧
      (pltB (wilcox (get_area_totals obsT g) (get_area_totals expT g)) alpha
          = true →
        (mean (get_area_totals obsT g) > mean (get_area_totals expT g) →
          t1.n_preference = ((st (groupStr g)).getD ⟨0, 0, 0⟩).n_preference + 1 ∧
          t1.n_rejection = ((st (groupStr g)).getD ⟨0, 0, 0⟩).n_rejection) ∧
        (¬ mean (get_area_totals obsT g) > mean (get_area_totals expT g) →
          t1.n_rejection = ((st (groupStr g)).getD ⟨0, 0, 0⟩).n_rejection + 1 ∧
          t1.n_preference = ((st (groupStr g)).getD ⟨0, 0, 0⟩).n_preference)) ∧
      (wilcox (get_area_totals obsT g) (get_area_totals expT g) = PValue.nan →
        t1 = (st (groupStr g)).getD ⟨0, 0, 0⟩) := by
  obtain ⟨st', heq, hagree⟩ := repeats_apply_eq alpha wilcox obsT expT st g hg
  rw [heq, processGroup_self_eq alpha wilcox obsT expT st' g h2o h2e, hagree]
  by_cases hp : pltB (wilcox (get_area_totals obsT g) (get_area_totals expT g))
      alpha
  · by_cases hmean :
        mean (get_area_totals obsT g) > mean (get_area_totals expT g)
    · refine ⟨_, rfl, ?_, ?_, ?_⟩
      · simp [hp, hmean]
      · intro _
        exact ⟨fun _ => by simp [hp, hmean], fun h => absurd hmean h⟩
      · intro hnan
        rw [hnan] at hp
        simp [pltB] at hp
    · refine ⟨_, rfl, ?_, ?_, ?_⟩
      · simp [hp, hmean]
      · intro _
        exact ⟨fun h => absurd h hmean, fun _ => by simp [hp, hmean]⟩
      · intro hnan
        rw [hnan] at hp
        simp [pltB] at hp
  · rw [Bool.not_eq_true] at hp
    refine ⟨_, rfl, ?_, ?_, ?_⟩
    · simp [hp]
    · intro h
      rw [hp] at h
      exact absurd h (by simp)
    · intro _
      simp [hp]

/-- C2 witness: on a concrete two-plate dataset with a significant
p-value and observed mean above expected mean, the invocation leaves the
group `A` tally at `(1, 1, 0)`. -/
theorem wilcoxon_repeats_tally_correct_witness :
    (∃ t1 : Tally,
      calculate_significance_wilcoxon_repeats (1 / 20)
          (fun _ _ => PValue.val (1 / 100))
          [⟨1, 3, 0, 0, 0⟩, ⟨2, 2, 0, 0, 0⟩] [⟨1, 1, 0, 0, 0⟩, ⟨2, 0, 0, 0, 0⟩]
          (fun _ => none) (groupStr [Area.A]) = some t1 ∧
      (t1.n_significant =
        (((fun _ => none : RepeatStats) (groupStr [Area.A])).getD
            ⟨0, 0, 0⟩).n_significant +
        (if pltB ((fun _ _ => PValue.val (1 / 100))
            (get_area_totals [⟨1, 3, 0, 0, 0⟩, ⟨2, 2, 0, 0, 0⟩] [Area.A])
            (get_area_totals [⟨1, 1, 0, 0, 0⟩, ⟨2, 0, 0, 0, 0⟩] [Area.A]))
            (1 / 20) then 1 else 0)) ∧
      (pltB ((fun _ _ => PValue.val (1 / 100))
          (get_area_totals [⟨1, 3, 0, 0, 0⟩, ⟨2, 2, 0, 0, 0⟩] [Area.A])
          (get_area_totals [⟨1, 1, 0, 0, 0⟩, ⟨2, 0, 0, 0, 0⟩] [Area.A]))
          (1 / 20) = true →
        (mean (get_area_totals [⟨1, 3, 0, 0, 0⟩, ⟨2, 2, 0, 0, 0⟩] [Area.A]) >
            mean (get_area_totals [⟨1, 1, 0, 0, 0⟩, ⟨2, 0, 0, 0, 0⟩] [Area.A]) →
          t1.n_preference =
            (((fun _ => none : RepeatStats) (groupStr [Area.A])).getD
                ⟨0, 0, 0⟩).n_preference + 1 ∧
          t1.n_rejection =
            (((fun _ => none : RepeatStats) (groupStr [Area.A])).getD
                ⟨0, 0, 0⟩).n_rejection) ∧
        (¬ mean (get_area_totals [⟨1, 3, 0, 0, 0⟩, ⟨2, 2, 0, 0, 0⟩] [Area.A]) >
            mean (get_area_totals [⟨1, 1, 0, 0, 0⟩, ⟨2, 0, 0, 0, 0⟩] [Area.A]) →
          t1.n_rejection =
            (((fun _ => none : RepeatStats) (groupStr [Area.A])).getD
                ⟨0, 0, 0⟩).n_rejection + 1 ∧
          t1.n_preference =
            (((fun _ => none : RepeatStats) (groupStr [Area.A])).getD
                ⟨0, 0, 0⟩).n_preference)) ∧
      ((fun _ _ => PValue.val (1 / 100))
          (get_area_totals [⟨1, 3, 0, 0, 0⟩, ⟨2, 2, 0, 0, 0⟩] [Area.A])
          (get_area_totals [⟨1, 1, 0, 0, 0⟩, ⟨2, 0, 0, 0, 0⟩] [Area.A])
          = PValue.nan →
        t1 = ((fun _ => none : RepeatStats) (groupStr [Area.A])).getD
          ⟨0, 0, 0⟩)) :=
  wilcoxon_repeats_tally_correct (1 / 20) (fun _ _ => PValue.val (1 / 100))
    [⟨1, 3, 0, 0, 0⟩, ⟨2, 2, 0, 0, 0⟩] [⟨1, 1, 0, 0, 0⟩, ⟨2, 0, 0, 0, 0⟩]
    (fun _ => none) [Area.A] (by decide) (by decide) (by decide)

/-- C3 — When the user-defined bucket totals aggregated from the
observed table sum to zero, `run` terminates through the
`analysis-aborted` signal path: the outcome is the defined `aborted`
value (an `ok` result, not an error), and it is reached for every
rank-sum oracle, chi-squared oracle and random stream alike — no
statistical test is consulted before the abort. -/
theorem run_aborts_on_zero_totals (records : List PlateRecord)
    (definition : List (String × List Area)) (alpha : ℚ) (n_repeats : Nat)
    (wilcox : List Nat → List Nat → PValue)
    (chisq : List Nat → List ℚ → ChisqResult) (picks : Nat → Nat → Nat)
    (totals : List (String × Nat))
    (hok : get_defined_areas_totals_observed definition
      (set_plate_area_totals_observed records) = .ok totals)
    (hzero : (totals.map Prod.snd).sum = 0) :
    runAnalysis records definition alpha n_repeats wilcox chisq picks
      = .ok .aborted := by
  simp only [runAnalysis, hok]
  show (if (List.map Prod.snd totals).sum = 0 then
      (pure RunOutcome.aborted : Except String RunOutcome)
    else _) = Except.ok RunOutcome.aborted
  rw [if_pos hzero]
  rfl

/-- C3 witness: one plate on which the species never occurs, with the
1:1 bucket definition, aborts for an arbitrary choice of oracles. -/
theorem run_aborts_on_zero_totals_witness :
    get_defined_areas_totals_observed
        [("area1", [Area.A]), ("area2", [Area.B]), ("area3", [Area.C]),
         ("area4", [Area.D])]
        (set_plate_area_totals_observed
          [⟨4, List.replicate 25 false⟩]) =
      .ok [("area1", 0), ("area2", 0), ("area3", 0), ("area4", 0)] ∧
    runAnalysis [⟨4, List.replicate 25 false⟩]
        [("area1", [Area.A]), ("area2", [Area.B]), ("area3", [Area.C]),
         ("area4", [Area.D])]
        (1 / 20) 3 (fun _ _ => PValue.val (1 / 2))
        (fun o _ => ⟨0, PValue.val (1 / 2), (o.length : ℚ) - 1, []⟩)
        (fun _ i => i) = .ok .aborted :=
  ⟨by decide,
   run_aborts_on_zero_totals [⟨4, List.replicate 25 false⟩]
    [("area1", [Area.A]), ("area2", [Area.B]), ("area3", [Area.C]),
     ("area4", [Area.D])]
    (1 / 20) 3 (fun _ _ => PValue.val (1 / 2))
    (fun o _ => ⟨0, PValue.val (1 / 2), (o.length : ℚ) - 1, []⟩)
    (fun _ i => i)
    [("area1", 0), ("area2", 0), ("area3", 0), ("area4", 0)]
    (by decide) (by decide)⟩

/-- A record's enumeration has at most one positive spot per flag. -/
theorem occupiedSpots_length_le :
    ∀ (flags : List Bool) (i : Nat),
      (occupiedSpots i flags).length ≤ flags.length := by
  intro flags
  induction flags with
  | nil => intro i; simp [occupiedSpots]
  | cons flag rest ih =>
    intro i
    rw [occupiedSpots]
    by_cases hf : flag
    · rw [if_pos hf]
      simpa using ih (i + 1)
    · rw [if_neg hf]
      have := ih (i + 1)
      simp only [List.length_cons]
      omega

/-- An observed row of a 25-flag record has at most 25 positive spots in
total. -/
theorem observedRow_rowSum_le (r : PlateRecord) (hlen : r.flags.length = 25) :
    rowSum (observedRow r) ≤ 25 := by
  have hmem : ∀ s ∈ occupiedSpots 1 r.flags, s ∈ allSpots := by
    intro s hs
    have hb := occupiedSpots_bounds r.flags 1 s hs
    rw [hlen] at hb
    exact List.mem_range'_1.mpr ⟨hb.1, by omega⟩
  have hfold := foldl_addSpot_eq (occupiedSpots 1 r.flags) ⟨0, 0, 0, 0⟩ hmem
  have hsum := filter_area_length_sum (occupiedSpots 1 r.flags) hmem
  have hcount := occupiedSpots_length_le r.flags 1
  rw [hlen] at hcount
  simp only [rowSum, observedRow, area_totals_of, hfold]
  omega

/-- The expected-totals loop: for observed rows whose spot totals do not
exceed 25, it succeeds and writes one parallel row per observed row,
carrying the same plate ID and the same number of positive spots. -/
theorem expectedRows_spec (pick : Nat → Nat) :
    ∀ (obs : List TotalsRow) (i0 : Nat),
      (∀ row ∈ obs, rowSum row ≤ 25) →
      ∃ exp, expectedRows pick i0 obs = .ok exp ∧
        exp.length = obs.length ∧
        exp.map TotalsRow.pla_id = obs.map TotalsRow.pla_id ∧
        ∀ p ∈ exp.zip obs, p.1.pla_id = p.2.pla_id ∧ rowSum p.1 = rowSum p.2 := by
  intro obs
  induction obs with
  | nil => intro i0 _; exact ⟨[], rfl, rfl, rfl, by simp⟩
  | cons row rest ih =>
    intro i0 hle
    have hrow : rowSum row ≤ 25 := hle row (List.mem_cons_self row rest)
    have hrest : ∀ q ∈ rest, rowSum q ≤ 25 := fun q hq =>
      hle q (List.mem_cons_of_mem row hq)
    obtain ⟨exp', hexp', hlen', hids', hzip'⟩ := ih (i0 + rowSum row) hrest
    have hspots : ∀ s ∈ sampleLoop pick i0 (rowSum row) allSpots, s ∈ allSpots :=
      (sampleLoop_subperm pick (rowSum row) i0 allSpots).subset
    have hslen : (sampleLoop pick i0 (rowSum row) allSpots).length = rowSum row :=
      sampleLoop_length pick (rowSum row) i0 allSpots (by simpa [allSpots] using hrow)
    have hfold := foldl_addSpot_eq (sampleLoop pick i0 (rowSum row) allSpots)
      ⟨0, 0, 0, 0⟩ hspots
    have hsum := filter_area_length_sum (sampleLoop pick i0 (rowSum row) allSpots)
      hspots
    refine ⟨⟨row.pla_id,
        (area_totals_of (sampleLoop pick i0 (rowSum row) allSpots)).a,
        (area_totals_of (sampleLoop pick i0 (rowSum row) allSpots)).b,
        (area_totals_of (sampleLoop pick i0 (rowSum row) allSpots)).c,
        (area_totals_of (sampleLoop pick i0 (rowSum row) allSpots)).d⟩ :: exp',
      ?_, ?_, ?_, ?_⟩
    · rw [expectedRows]
      have hok : get_random_for_plate_from pick i0
          (row.area_a + row.area_b + row.area_c + row.area_d) =
          .ok (sampleLoop pick i0 (rowSum row) allSpots) := by
        simp [get_random_for_plate_from, rowSum] at hrow ⊢
        simp [hrow, rowSum]
      rw [hok]
      show (expectedRows pick (i0 + (row.area_a + row.area_b + row.area_c
          + row.area_d)) rest).bind _ = _
      rw [show row.area_a + row.area_b + row.area_c + row.area_d = rowSum row
        from rfl, hexp']
      rfl
    · simp [hlen']
    · simp [hids']
    · intro p hp
      rcases List.mem_cons.mp (by simpa [List.zip_cons_cons] using hp) with
        heq | htail
      · subst heq
        refine ⟨rfl, ?_⟩
        simp only [rowSum, area_totals_of] at hsum hslen hfold ⊢
        rw [hfold]
        simp only []
        omega
      · exact hzip' p htail

/-- Unfolding one iteration of the repeat loop. -/
theorem repeat_loop_succ (alpha : ℚ) (wilcox : List Nat → List Nat → PValue)
    (picks : Nat → Nat → Nat) (i k : Nat) (st : AnalysisState) :
    repeat_loop alpha wilcox picks i (k + 1) st =
      (repeat_step alpha wilcox (picks i) st).bind
        (repeat_loop alpha wilcox picks (i + 1) k) := rfl

/-- The repeat loop preserves the observed table and, after every
iteration, leaves an expected table with exactly the observed table's
plate IDs. -/
theorem repeat_loop_invariant (alpha : ℚ)
    (wilcox : List Nat → List Nat → PValue) (picks : Nat → Nat → Nat)
    (obs : List TotalsRow) (hobs : ∀ row ∈ obs, rowSum row ≤ 25) :
    ∀ (k i : Nat) (st : AnalysisState), st.obsTable = obs → 1 ≤ k →
      ∃ st', repeat_loop alpha wilcox picks i k st = .ok st' ∧
        st'.obsTable = obs ∧
        st'.expTable.map TotalsRow.pla_id = obs.map TotalsRow.pla_id ∧
        st'.expTable.length = obs.length := by
  intro k
  induction k with
  | zero => intro i st _ hk; omega
  | succ k ih =>
    intro i st hst _
    obtain ⟨exp, hexp, hlen, hids, -⟩ :=
      expectedRows_spec (picks i) obs 0 hobs
    have hstep : repeat_step alpha wilcox (picks i) st = .ok
        { st with
          expTable := exp
          repeats := calculate_significance_wilcoxon_repeats alpha wilcox
            st.obsTable exp st.repeats } := by
      simp [repeat_step, set_plate_area_totals_expected, hst, hexp]
    match k with
    | 0 =>
      refine ⟨{ st with
          expTable := exp
          repeats := calculate_significance_wilcoxon_repeats alpha wilcox
            st.obsTable exp st.repeats }, ?_, hst, hids, hlen⟩
      rw [repeat_loop_succ, hstep]
      rfl
    | k' + 1 =>
      obtain ⟨st', hst', h1, h2, h3⟩ := ih (i + 1)
        { st with
          expTable := exp
          repeats := calculate_significance_wilcoxon_repeats alpha wilcox
            st.obsTable exp st.repeats } hst (by omega)
      refine ⟨st', ?_, h1, h2, h3⟩
      rw [repeat_loop_succ, hstep]
      exact hst'

/-- C6 — Every run of the expected-totals computation replaces the
expected table with exactly one row per row of the observed table, with
the same plate ID and that plate's positive-spot count as the
randomization cardinality, so the two tables have equal row counts after
it completes; and this consistency holds again after every iteration of
the repeat loop. -/
theorem expected_table_consistency (records : List PlateRecord)
    (hflags : ∀ r ∈ records, r.flags.length = 25) :
    (∀ pick, ∃ exp,
      set_plate_area_totals_expected pick
          (set_plate_area_totals_observed records) = .ok exp ∧
      exp.length = (set_plate_area_totals_observed records).length ∧
      exp.map TotalsRow.pla_id
        = (set_plate_area_totals_observed records).map TotalsRow.pla_id ∧
      ∀ p ∈ exp.zip (set_plate_area_totals_observed records),
        p.1.pla_id = p.2.pla_id ∧ rowSum p.1 = rowSum p.2) ∧
    (∀ alpha wilcox picks i k (st : AnalysisState),
      st.obsTable = set_plate_area_totals_observed records → 1 ≤ k →
      ∃ st', repeat_loop alpha wilcox picks i k st = .ok st' ∧
        st'.obsTable = set_plate_area_totals_observed records ∧
        st'.expTable.map TotalsRow.pla_id
          = (set_plate_area_totals_observed records).map TotalsRow.pla_id ∧
        st'.expTable.length = (set_plate_area_totals_observed records).length) := by
  have hobs : ∀ row ∈ set_plate_area_totals_observed records, rowSum row ≤ 25 := by
    intro row hrow
    obtain ⟨r, hr, hrfl⟩ := List.mem_map.mp hrow
    exact hrfl ▸ observedRow_rowSum_le r (hflags r hr)
  exact ⟨fun pick => expectedRows_spec pick _ 0 hobs,
    fun alpha wilcox picks i k st hst hk =>
      repeat_loop_invariant alpha wilcox picks _ hobs k i st hst hk⟩

/-- C6 witness: a concrete one-plate dataset, a concrete random stream
and one repeat. -/
theorem expected_table_consistency_witness :
    (∃ exp,
      set_plate_area_totals_expected (fun i => 3 * i)
          (set_plate_area_totals_observed
            [⟨9, [true, true, false, false, true,
                  false, false, false, false, false,
                  false, false, true, false, false,
                  false, false, false, false, false,
                  false, false, false, false, false]⟩]) = .ok exp ∧
      exp.length = (set_plate_area_totals_observed
        [⟨9, [true, true, false, false, true,
              false, false, false, false, false,
              false, false, true, false, false,
              false, false, false, false, false,
              false, false, false, false, false]⟩]).length ∧
      exp.map TotalsRow.pla_id
        = (set_plate_area_totals_observed
            [⟨9, [true, true, false, false, true,
                  false, false, false, false, false,
                  false, false, true, false, false,
                  false, false, false, false, false,
                  false, false, false, false, false]⟩]).map TotalsRow.pla_id ∧
      ∀ p ∈ exp.zip (set_plate_area_totals_observed
          [⟨9, [true, true, false, false, true,
                false, false, false, false, false,
                false, false, true, false, false,
                false, false, false, false, false,
                false, false, false, false, false]⟩]),
        p.1.pla_id = p.2.pla_id ∧ rowSum p.1 = rowSum p.2) :=
  (expected_table_consistency
      [⟨9, [true, true, false, false, true,
            false, false, false, false, false,
            false, false, true, false, false,
            false, false, false, false, false,
            false, false, false, false, false]⟩]
      (by decide)).1 (fun i => 3 * i)

/-- A key is absent from a dictionary exactly when `pyGet` returns
`none`. -/
theorem pyGet_eq_none_iff {α : Type} (d : List (String × α)) (k : String) :
    pyGet d k = none ↔ k ∉ d.map Prod.fst := by
  induction d with
  | nil => simp [pyGet]
  | cons p rest ih =>
    by_cases hk : p.1 = k
    · simp [pyGet, List.find?, hk]
    · simp only [pyGet, List.find?, List.map_cons, List.mem_cons]
      rw [show (p.1 == k) = false by simpa using hk]
      simpa [pyGet] using ih.trans (by simp [hk, Ne.symm hk])

/-- Updating a present key stores the new value. -/
theorem pyGet_pySet_self {α : Type} (d : List (String × α)) (k : String)
    (v : α) : ∀ old, pyGet d k = some old → pyGet (pySet d k v) k = some v := by
  induction d with
  | nil => intro old h; simp [pyGet] at h
  | cons p rest ih =>
    intro old h
    by_cases hk : p.1 = k
    · simp [pyGet, pySet, List.find?, hk]
    · have hbeq : (p.1 == k) = false := by simpa using hk
      simp only [pyGet, pySet, List.map_cons, if_neg hk, List.find?, hbeq] at h ⊢
      exact ih old h

/-- Updating one key leaves every other key's value unchanged. -/
theorem pyGet_pySet_ne {α : Type} (d : List (String × α)) (k k' : String)
    (v : α) (h : k' ≠ k) : pyGet (pySet d k v) k' = pyGet d k' := by
  induction d with
  | nil => rfl
  | cons p rest ih =>
    simp only [pySet, List.map_cons]
    by_cases hk : p.1 = k
    · rw [if_pos hk]
      have h1 : (k == k') = false := by simpa using Ne.symm h
      have h2 : (p.1 == k') = false := by rw [hk]; exact h1
      simp only [pyGet, List.find?, h1, h2]
      exact ih
    · rw [if_neg hk]
      by_cases hpk' : p.1 = k'
      · simp [pyGet, List.find?, hpk']
      · have h2 : (p.1 == k') = false := by simpa using hpk'
        simp only [pyGet, List.find?, h2]
        exact ih

/-- Updating a key never changes the key column. -/
theorem pySet_keys {α : Type} (d : List (String × α)) (k : String) (v : α) :
    (pySet d k v).map Prod.fst = d.map Prod.fst := by
  induction d with
  | nil => rfl
  | cons p rest ih =>
    by_cases hk : p.1 = k
    · simp [pySet, hk] at ih ⊢
      exact ih
    · simp [pySet, if_neg hk] at ih ⊢
      exact ih

/-- `d[k] += v` on a present key: the stored value grows by `v`, the key
column and every other key's value are unchanged. -/
theorem pyAddAt_ok {α : Type} [AddMonoid α] (d : List (String × α))
    (k : String) (v old : α) (h : pyGet d k = some old) :
    pyAddAt d k v = .ok (pySet d k (old + v)) := by
  simp [pyAddAt, h]

/-- `for v in vals: d[k] += v` on a present key: the stored value grows
by the sum of `vals`, the key column and the other keys' values are
unchanged. -/
theorem accumAdd_ok {α : Type} [AddMonoid α] :
    ∀ (vals : List α) (d : List (String × α)) (k : String) (old : α),
      pyGet d k = some old →
      ∃ d', accumAdd d k vals = .ok d' ∧
        d'.map Prod.fst = d.map Prod.fst ∧
        pyGet d' k = some (old + vals.sum) ∧
        ∀ k', k' ≠ k → pyGet d' k' = pyGet d k' := by
  intro vals
  induction vals with
  | nil =>
    intro d k old h
    exact ⟨d, rfl, rfl, by simpa using h, fun _ _ => rfl⟩
  | cons v rest ih =>
    intro d k old h
    have hstep := pyAddAt_ok d k v old h
    have hget : pyGet (pySet d k (old + v)) k = some (old + v) :=
      pyGet_pySet_self d k (old + v) old h
    obtain ⟨d', hfold, hkeys, hval, hothers⟩ := ih (pySet d k (old + v)) k
      (old + v) hget
    refine ⟨d', ?_, hkeys.trans (pySet_keys d k (old + v)), ?_, ?_⟩
    · show (pyAddAt d k v).bind (fun d => accumAdd d k rest) = .ok d'
      rw [hstep]
      exact hfold
    · rw [hval, List.sum_cons, add_assoc]
    · intro k' hk'
      rw [hothers k' hk', pyGet_pySet_ne d k k' (old + v) hk']

/-- `for v in vals: d[k] += v` on an absent key raises `KeyError` as soon
as `vals` is non-empty. -/
theorem accumAdd_error {α : Type} [AddMonoid α] (d : List (String × α))
    (k : String) (v : α) (rest : List α) (h : pyGet d k = none) :
    accumAdd d k (v :: rest) = .error ("KeyError: " ++ k) := by
  show (pyAddAt d k v).bind (fun d => accumAdd d k rest) = _
  rw [pyAddAt, h]
  rfl

/-- A successful `accumAdd` never changes the key column. -/
theorem accumAdd_keys {α : Type} [AddMonoid α] :
    ∀ (vals : List α) (d d' : List (String × α)) (k : String),
      accumAdd d k vals = .ok d' → d'.map Prod.fst = d.map Prod.fst := by
  intro vals
  induction vals with
  | nil =>
    intro d d' k h
    cases h
    rfl
  | cons v rest ih =>
    intro d d' k h
    rw [show accumAdd d k (v :: rest)
        = (pyAddAt d k v).bind (fun d => accumAdd d k rest) from rfl] at h
    cases hget : pyGet d k with
    | none => rw [pyAddAt, hget] at h; cases h
    | some old =>
      rw [pyAddAt, hget] at h
      simp only [Except.bind] at h
      exact (ih _ d' k h).trans (pySet_keys d k (old + v))

/-- Folding the per-bucket accumulation over a definition whose keys are
all present and pairwise distinct: every bucket's stored value grows by
the sum of its values, and the key column is unchanged. -/
theorem foldlM_accumAdd_spec {α : Type} [AddMonoid α]
    (vals : (String × List Area) → List α) :
    ∀ (defn : List (String × List Area)) (d : List (String × α)),
      (∀ e ∈ defn, ∃ v, pyGet d e.1 = some v) → (defn.map Prod.fst).Nodup →
      ∃ m, defn.foldlM (fun acc e => accumAdd acc e.1 (vals e)) d = .ok m ∧
        m.map Prod.fst = d.map Prod.fst ∧
        (∀ e ∈ defn, ∀ old, pyGet d e.1 = some old →
          pyGet m e.1 = some (old + (vals e).sum)) ∧
        (∀ k, k ∉ defn.map Prod.fst → pyGet m k = pyGet d k) := by
  intro defn
  induction defn with
  | nil => intro d _ _; exact ⟨d, rfl, rfl, by simp, fun _ _ => rfl⟩
  | cons e rest ih =>
    intro d hpresent hnodup
    obtain ⟨v0, hv0⟩ := hpresent e (List.mem_cons_self e rest)
    obtain ⟨d1, hd1, hkeys1, hval1, hothers1⟩ := accumAdd_ok (vals e) d e.1 v0 hv0
    have hnodup' : (e.1 :: rest.map Prod.fst).Nodup := by
      rw [List.map_cons] at hnodup
      exact hnodup
    have hnd := List.nodup_cons.mp hnodup'
    have hrest_present : ∀ e' ∈ rest, ∃ v, pyGet d1 e'.1 = some v := by
      intro e' he'
      obtain ⟨v, hv⟩ := hpresent e' (List.mem_cons_of_mem e he')
      have hne : e'.1 ≠ e.1 := by
        intro heq
        exact hnd.1 (heq ▸ List.mem_map_of_mem Prod.fst he')
      exact ⟨v, (hothers1 e'.1 hne).trans hv⟩
    obtain ⟨m, hm, hkeysm, hvalm, hothersm⟩ := ih d1 hrest_present hnd.2
    refine ⟨m, ?_, hkeysm.trans hkeys1, ?_, ?_⟩
    · show (accumAdd d e.1 (vals e)).bind _ = .ok m
      rw [hd1]
      exact hm
    · intro e' he' old hold
      rcases List.mem_cons.mp he' with heq | htail
      · subst heq
        rw [hold] at hv0
        cases hv0
        have hnotin : e'.1 ∉ rest.map Prod.fst := hnd.1
        rw [hothersm e'.1 hnotin, hval1]
      · have hne : e'.1 ≠ e.1 := by
          intro heq
          exact hnd.1 (heq ▸ List.mem_map_of_mem Prod.fst htail)
        have : pyGet d1 e'.1 = some old := (hothers1 e'.1 hne).trans hold
        exact hvalm e' htail old this
    · intro k hk
      simp only [List.map_cons, List.mem_cons] at hk
      push_neg at hk
      rw [hothersm k (by simpa using hk.2), hothers1 k hk.1]

/-- Folding the per-bucket accumulation errors whenever some bucket of
the definition is absent from the dictionary and has a non-empty value
list. -/
theorem foldlM_accumAdd_error {α : Type} [AddMonoid α]
    (vals : (String × List Area) → List α) :
    ∀ (defn : List (String × List Area)) (d : List (String × α))
      (e : String × List Area), e ∈ defn → e.1 ∉ d.map Prod.fst →
      vals e ≠ [] →
      ∃ err, defn.foldlM (fun acc e' => accumAdd acc e'.1 (vals e')) d
        = .error err := by
  intro defn
  induction defn with
  | nil => intro d e he; simp at he
  | cons e0 rest ih =>
    intro d e he habsent hvals
    rcases List.mem_cons.mp he with heq | htail
    · subst heq
      have hnone : pyGet d e.1 = none := (pyGet_eq_none_iff d e.1).mpr habsent
      match hv : vals e with
      | [] => exact absurd hv hvals
      | v :: vs =>
        refine ⟨"KeyError: " ++ e.1, ?_⟩
        show (accumAdd d e.1 (vals e)).bind _ = _
        rw [hv, accumAdd_error d e.1 v vs hnone]
        rfl
    · cases hacc : accumAdd d e0.1 (vals e0) with
      | error err =>
        refine ⟨err, ?_⟩
        show (accumAdd d e0.1 (vals e0)).bind _ = _
        rw [hacc]
        rfl
      | ok d1 =>
        have hkeys := accumAdd_keys (vals e0) d d1 e0.1 hacc
        obtain ⟨err, herr⟩ := ih d1 e htail (hkeys ▸ habsent) hvals
        refine ⟨err, ?_⟩
        show (accumAdd d e0.1 (vals e0)).bind _ = _
        rw [hacc]
        exact herr

/-- Filtering a dictionary by a key predicate keeps the values of the
surviving keys. -/
theorem pyGet_filter {α : Type} (pred : String → Bool) :
    ∀ (d : List (String × α)) (k : String), pred k = true →
      pyGet (d.filter fun p => pred p.1) k = pyGet d k := by
  intro d
  induction d with
  | nil => intro k _; rfl
  | cons p rest ih =>
    intro k hk
    by_cases hpk : p.1 = k
    · subst hpk
      simp [pyGet, List.filter_cons, hk, List.find?]
    · have hb : (p.1 == k) = false := by simpa using hpk
      by_cases hpred : pred p.1
      · simp only [List.filter_cons, hpred, if_true, pyGet, List.find?, hb]
        exact ih k hk
      · simp only [List.filter_cons, hpred, if_false, pyGet, List.find?, hb]
        have := ih k hk
        simpa [pyGet, List.find?, hb, hpred] using this

/-- Filtering a dictionary by a key predicate filters its key column. -/
theorem keys_filter {α : Type} (pred : String → Bool) :
    ∀ (d : List (String × α)),
      (d.filter fun p => pred p.1).map Prod.fst
        = (d.map Prod.fst).filter pred := by
  intro d
  induction d with
  | nil => rfl
  | cons p rest ih =>
    by_cases hpred : pred p.1
    · simp [List.filter_cons, hpred, ih]
    · simp [List.filter_cons, hpred, ih]

/-- The pre-initialised accumulator holds zero at each built-in bucket
name. -/
theorem pyGet_init_zero : ∀ k ∈ bucketNames,
    pyGet [("area1", (0 : Nat)), ("area2", 0), ("area3", 0), ("area4", 0)] k
      = some 0 := by
  decide

/-- C7 — For a region-group definition whose bucket names are among the
four known names and pairwise distinct, the user-bucket aggregation of
observed totals succeeds, its key set is exactly the set of bucket names
present in the definition (the other pre-initialised buckets are
omitted), and each bucket's value is the sum over all plates of the
region totals of its constituent built-in regions. -/
theorem defined_areas_totals_correct (definition : List (String × List Area))
    (obsT : List TotalsRow)
    (hkeys : ∀ e ∈ definition, e.1 ∈ bucketNames)
    (hnodup : (definition.map Prod.fst).Nodup) :
    ∃ m, get_defined_areas_totals_observed definition obsT = .ok m ∧
      (∀ k, k ∈ m.map Prod.fst ↔ k ∈ definition.map Prod.fst) ∧
      (∀ e ∈ definition, pyGet m e.1 = some (get_area_totals obsT e.2).sum) := by
  have hpresent : ∀ e ∈ definition, ∃ v,
      pyGet [("area1", (0 : Nat)), ("area2", 0), ("area3", 0), ("area4", 0)]
        e.1 = some v :=
    fun e he => ⟨0, pyGet_init_zero e.1 (hkeys e he)⟩
  obtain ⟨m0, hm0, hkeys0, hval0, -⟩ :=
    foldlM_accumAdd_spec (fun e => get_area_totals obsT e.2) definition
      [("area1", 0), ("area2", 0), ("area3", 0), ("area4", 0)] hpresent hnodup
  refine ⟨m0.filter fun p => decide (p.1 ∈ definition.map Prod.fst), ?_, ?_, ?_⟩
  · simp only [get_defined_areas_totals_observed, hm0]
    rfl
  · intro k
    have hkf := keys_filter (fun k => decide (k ∈ definition.map Prod.fst)) m0
    rw [hkf, hkeys0]
    constructor
    · intro hk
      have := List.mem_filter.mp hk
      simpa using this.2
    · intro hk
      refine List.mem_filter.mpr ⟨?_, by simpa using hk⟩
      obtain ⟨e, he, hrfl⟩ := List.mem_map.mp hk
      exact hrfl ▸ hkeys e he
  · intro e he
    have hpred : (fun k => decide (k ∈ definition.map Prod.fst)) e.1 = true := by
      simpa using List.mem_map_of_mem Prod.fst he
    have h1 : pyGet (m0.filter fun p =>
        decide (p.1 ∈ definition.map Prod.fst)) e.1 = pyGet m0 e.1 :=
      pyGet_filter (fun k => decide (k ∈ definition.map Prod.fst)) m0 e.1 hpred
    rw [h1, hval0 e he 0 (pyGet_init_zero e.1 (hkeys e he)), Nat.zero_add]

/-- C7 witness: a two-bucket definition over one plate with totals
`A = 2, B = 1, C = 0, D = 0`: `area1 = A+B = 3`, `area2 = C+D = 0`, and
the unused buckets `area3`, `area4` are omitted. -/
theorem defined_areas_totals_correct_witness :
    ∃ m, get_defined_areas_totals_observed
        [("area1", [Area.A, Area.B]), ("area2", [Area.C, Area.D])]
        [⟨1, 2, 1, 0, 0⟩] = .ok m ∧
      (∀ k, k ∈ m.map Prod.fst ↔
        k ∈ ([("area1", [Area.A, Area.B]),
              ("area2", [Area.C, Area.D])].map Prod.fst)) ∧
      (∀ e ∈ [("area1", [Area.A, Area.B]), ("area2", [Area.C, Area.D])],
        pyGet m e.1 = some (get_area_totals [⟨1, 2, 1, 0, 0⟩] e.2).sum) :=
  defined_areas_totals_correct
    [("area1", [Area.A, Area.B]), ("area2", [Area.C, Area.D])]
    [⟨1, 2, 1, 0, 0⟩] (by decide) (by decide)

/-- C10 counterexample — a definition with a foreign bucket name does
NOT raise `KeyError` in the totals aggregation when the observed table
is empty: the aggregation returns normally (with the bucket simply
missing from the result). -/
theorem foreign_bucket_counterexample :
    get_defined_areas_totals_observed [("corner", [Area.A])] [] = .ok [] := by
  decide

/-- C10 (amended) — A bucket named outside `area1 ... area4` with at
least one assigned region always raises `KeyError` in the
bucket-probability computation, and raises `KeyError` in the totals
aggregation whenever the observed table has at least one row. -/
theorem foreign_bucket_keyerror (definition : List (String × List Area))
    (name : String) (group : List Area) (obsT : List TotalsRow)
    (hmem : (name, group) ∈ definition) (hforeign : name ∉ bucketNames)
    (hgroup : group ≠ []) :
    (∃ err, get_area_probabilities definition = .error err) ∧
    (obsT ≠ [] →
      ∃ err, get_defined_areas_totals_observed definition obsT = .error err) := by
  constructor
  · obtain ⟨err, herr⟩ := foldlM_accumAdd_error (fun e => e.2.map regionProb)
      definition [("area1", (0 : ℚ)), ("area2", 0), ("area3", 0), ("area4", 0)]
      (name, group) hmem (by exact hforeign) (by simpa using hgroup)
    refine ⟨err, ?_⟩
    simp only [get_area_probabilities, herr]
    rfl
  · intro hobs
    obtain ⟨err, herr⟩ := foldlM_accumAdd_error
      (fun e => get_area_totals obsT e.2) definition
      [("area1", (0 : Nat)), ("area2", 0), ("area3", 0), ("area4", 0)]
      (name, group) hmem (by exact hforeign)
      (by simp [get_area_totals, hobs])
    refine ⟨err, ?_⟩
    simp only [get_defined_areas_totals_observed, herr]
    rfl

/-- C10 witness: the concrete foreign bucket `corner` mapped to region
`A`, over a one-row observed table. -/
theorem foreign_bucket_keyerror_witness :
    (∃ err, get_area_probabilities [("corner", [Area.A])] = .error err) ∧
    (([⟨1, 1, 0, 0, 0⟩] : List TotalsRow) ≠ [] →
      ∃ err, get_defined_areas_totals_observed [("corner", [Area.A])]
        [⟨1, 1, 0, 0, 0⟩] = .error err) :=
  foreign_bucket_keyerror [("corner", [Area.A])] "corner" [Area.A]
    [⟨1, 1, 0, 0, 0⟩] (by decide) (by decide) (by decide)

/-- `find?` skips a prefix on which the predicate is false. -/
theorem find?_append_of_none {β : Type} (p : β → Bool) :
    ∀ (l1 l2 : List β), (∀ c ∈ l1, p c = false) →
      (l1 ++ l2).find? p = l2.find? p := by
  intro l1
  induction l1 with
  | nil => intro l2 _; rfl
  | cons c rest ih =>
    intro l2 hfalse
    rw [List.cons_append, List.find?,
      hfalse c (List.mem_cons_self c rest)]
    exact ih l2 fun c' hc' => hfalse c' (List.mem_cons_of_mem c hc')

/-- Lookup in a one-step extension of a dictionary. -/
theorem pyGet_append_singleton {α : Type} (d : List (String × α))
    (k0 k : String) (v : α) (h : pyGet d k = none) :
    pyGet (d ++ [(k0, v)]) k = pyGet [(k0, v)] k := by
  induction d with
  | nil => rfl
  | cons p rest ih =>
    by_cases hpk : p.1 = k
    · simp [pyGet, List.find?, hpk] at h
    · have hb : (p.1 == k) = false := by simpa using hpk
      simp only [pyGet, List.find?, hb, List.cons_append] at h ⊢
      exact ih h

/-- Parsing the writer's `area` children appends, in order, one
dictionary entry per written bucket, holding the stripped stringified
total. -/
theorem parse_fold (entries : List (String × PyVal)) :
    ∀ acc : List (String × PyVal),
      (∀ e ∈ entries, pyGet acc e.1 = none) → (entries.map Prod.fst).Nodup →
      (entries.map fun p =>
          XmlNode.element "area" [("id", p.1)] [.text (pyStr p.2)]).foldlM
        parseAreaChild acc
        = .ok (acc ++ entries.map fun p =>
            (p.1, PyVal.str (pyStrip (pyStr p.2)))) := by
  induction entries with
  | nil =>
    intro acc _ _
    simp only [List.map_nil, List.append_nil]
    rfl
  | cons p rest ih =>
    intro acc hfresh hnodup
    have hpfresh : pyGet acc p.1 = none := hfresh p (List.mem_cons_self p rest)
    have hstep : parseAreaChild acc
        (XmlNode.element "area" [("id", p.1)] [.text (pyStr p.2)])
        = .ok (acc ++ [(p.1, PyVal.str (pyStrip (pyStr p.2)))]) := by
      show Except.ok (pyUpsert acc (getAttrFrom [("id", p.1)] "id")
          (.str (pyStrip (pyStr p.2)))) = _
      rw [show getAttrFrom [("id", p.1)] "id" = p.1 from rfl, pyUpsert,
        hpfresh]
      rfl
    have hnodup' : (p.1 :: rest.map Prod.fst).Nodup := by
      rw [List.map_cons] at hnodup
      exact hnodup
    have hnd := List.nodup_cons.mp hnodup'
    have hfresh' : ∀ e ∈ rest,
        pyGet (acc ++ [(p.1, PyVal.str (pyStrip (pyStr p.2)))]) e.1 = none := by
      intro e he
      rw [pyGet_append_singleton acc p.1 e.1 _
        (hfresh e (List.mem_cons_of_mem p he))]
      have hne : (p.1 == e.1) = false := by
        simp only [beq_eq_false_iff_ne, ne_eq]
        intro heq
        exact hnd.1 (heq ▸ List.mem_map_of_mem Prod.fst he)
      simp [pyGet, List.find?, hne]
    have htail := ih (acc ++ [(p.1, PyVal.str (pyStrip (pyStr p.2)))])
      hfresh' hnd.2
    rw [List.map_cons, List.foldlM_cons, hstep]
    show (rest.map fun p =>
        XmlNode.element "area" [("id", p.1)] [.text (pyStr p.2)]).foldlM
      parseAreaChild (acc ++ [(p.1, PyVal.str (pyStrip (pyStr p.2)))]) = _
    rw [htail]
    simp

/-- C9 counterexample — writing the observed totals `{'area1': 27}` and
reading them back yields `{'area1': '27'}`: the parsed total is the
decimal string, which under Python 2 equality is not the written
integer. -/
theorem area_totals_roundtrip_counterexample :
    get_area_totals_observed_reader
        (makeDocument [set_area_totals_observed [("area1", PyVal.int 27)]])
      = .ok (some [("area1", PyVal.str "27")]) ∧
    pyValEq (PyVal.str "27") (PyVal.int 27) = false ∧
    PyVal.str "27" ≠ PyVal.int 27 :=
  ⟨rfl, by decide, by decide⟩

/-- C9 (amended) — For every observed-area-totals dictionary with
distinct bucket names, writing it with the generator's area-totals
writer and reading it back with the reader's accessor yields a
dictionary with exactly the written bucket names in order, each mapped
to the stripped `str(...)` rendering of the written total (a string, not
the original value); the element is found among arbitrary sibling report
elements. -/
theorem area_totals_roundtrip (m : List (String × PyVal))
    (pre post : List XmlNode) (hnodup : (m.map Prod.fst).Nodup)
    (hpre : ∀ c ∈ pre, isElementNamed "area_totals_observed" c = false) :
    get_area_totals_observed_reader
        (makeDocument (pre ++ set_area_totals_observed m :: post))
      = .ok (some (m.map fun p => (p.1, PyVal.str (pyStrip (pyStr p.2))))) ∧
    (m.map fun p => (p.1, PyVal.str (pyStrip (pyStr p.2)))).map Prod.fst
      = m.map Prod.fst := by
  constructor
  · have hfind : (pre ++ set_area_totals_observed m :: post).find?
        (isElementNamed "area_totals_observed")
        = some (set_area_totals_observed m) := by
      rw [find?_append_of_none _ pre _ hpre, List.find?,
        show isElementNamed "area_totals_observed"
          (set_area_totals_observed m) = true from rfl]
    have hel : get_element
        (makeDocument (pre ++ set_area_totals_observed m :: post))
        "area_totals_observed" = some (XmlNode.element "area_totals_observed"
          [] (m.map fun p =>
            XmlNode.element "area" [("id", p.1)] [.text (pyStr p.2)])) := by
      simp only [get_element, makeDocument]
      exact hfind
    simp only [get_area_totals_observed_reader, hel]
    rw [parse_fold m [] (fun _ _ => rfl) hnodup]
    simp [Except.map]
  · simp

/-- C9 witness: two integer totals written and read back as their exact
decimal strings, keys preserved in order. -/
theorem area_totals_roundtrip_witness :
    get_area_totals_observed_reader
        (makeDocument ([] ++ set_area_totals_observed
          [("area1", PyVal.int 27), ("area2", PyVal.int 0)] :: []))
      = .ok (some ([("area1", PyVal.int 27),
          ("area2", PyVal.int 0)].map fun p =>
            (p.1, PyVal.str (pyStrip (pyStr p.2))))) ∧
    (([("area1", PyVal.int 27), ("area2", PyVal.int 0)].map fun p =>
        (p.1, PyVal.str (pyStrip (pyStr p.2)))).map Prod.fst)
      = [("area1", PyVal.int 27), ("area2", PyVal.int 0)].map Prod.fst :=
  area_totals_roundtrip [("area1", PyVal.int 27), ("area2", PyVal.int 0)]
    [] [] (by decide) (fun c hc => absurd hc (List.not_mem_nil c))

end Setlyze
